import Mathlib

/-!
Verification of the namespace-to-module conversion engine described by the
repository specification (the polymer-modulizer conversion core).

The implementation of the conversion engine itself is not present in the
repository snapshot; only its behavioural test suite
(src/unnamed/part_001), the dom5 test suite (src/unnamed/part_002) and the
package-level driver (src/polymer-modulizer/src/convert-package.ts) are.
All definitions below are therefore shallow models of the missing engine,
written from the component contracts of the specification and constrained by the
concrete input/output pairs recorded in the test suite.  Each model carries
a doc comment naming the part of the engine it stands for.
-/

namespace Spec2Proof

/- ===================================================================
   Part 1: script bodies and per-document conversion
   (Reference Resolver & Rewriter, Import/Export Synthesizer,
    Structural/Template Relocator; spec sections 4.3, 4.4, 4.6)
   =================================================================== -/

/-- Modelled from the spec: an atomic piece of script code, as seen by the
Reference Resolver (spec section 4.3).  The resolver distinguishes opaque
statements, reads of a namespace member, qualified assignments into a
namespace member, writes to global configuration properties, the
undefined-sentinel used for excluded references, rewritten local
references, and synthesized re-export declarations. -/
inductive CAtom where
  | plain (s : String)
  | nsRead (ns mem : String)
  | nsAssign (ns mem rhs : String)
  | globalWrite (name : String)
  | undefLit
  | localRef (name : String)
  | exportDecl (rhs name : String)
  deriving DecidableEq, Repr

/-- Modelled from the spec: the kind of top-level event wrapper recognized
by the converter (the WebComponentsReady addEventListener pattern and the
HTMLImports.whenReady pattern, per the test named
remove WebComponentsReady). -/
inductive WrapKind where
  | webComponentsReady
  | htmlImportsWhenReady
  deriving DecidableEq, Repr

/-- Modelled from the spec: a top-level statement of a script fragment.
Besides atomic statements, the converter recognizes a top-level
immediately-invoked wrapper function (spec section 4.3: a single top-level
immediately-invoked wrapper function is unwrapped, its body hoisted to
document scope) and the event-wrapper calls whose callback body is hoisted
to top level. -/
inductive CStmt where
  | atom (a : CAtom)
  | iife (body : List CAtom)
  | onReady (k : WrapKind) (body : List CAtom)
  deriving DecidableEq, Repr

/-- Modelled from the spec: the fully qualified reference path of a
namespace member, as matched against the reference-exclusion setting
(spec section 4.3, referenceExcludes entries such as Polymer.DomModule). -/
def mkPath (ns mem : String) : String :=
  ns ++ "." ++ mem

/-- Modelled from the spec (section 4.3, decision policy): rewriting of one
atomic statement.  A read of a namespace member resolves to its Export
Binding and is requested as a named import, unless the member path is
listed in the reference-exclusion set, in which case it resolves to an
undefined-sentinel literal and no import is emitted.  An assignment whose
left-hand side is an excluded path is rewritten into an export declaration
re-exporting the right-hand expression under the name of the excluded member.
The second component lists the (namespace, member) import requests this
atom generates. -/
def convertAtom (ex : List String) : CAtom → CAtom × List (String × String)
  | .nsRead ns mem =>
      if mkPath ns mem ∈ ex then (.undefLit, []) else (.localRef mem, [(ns, mem)])
  | .nsAssign ns mem rhs =>
      if mkPath ns mem ∈ ex then (.exportDecl rhs mem, []) else (.nsAssign ns mem rhs, [])
  | a => (a, [])

/-- Shorthand for the rewritten atom alone. -/
def convAtom (ex : List String) (a : CAtom) : CAtom :=
  (convertAtom ex a).1

/-- Import requests generated by one atom. -/
def atomImports (ex : List String) (a : CAtom) : List (String × String) :=
  (convertAtom ex a).2

/-- Modelled from the spec (sections 4.3 and 4.5, and the tests
named remove WebComponentsReady and Unwrap multiple IIFEs): conversion of
one top-level statement.  Wrapper statements are removed and their bodies
hoisted, rewritten, to top level; atomic statements are rewritten in
place. -/
def convertStmt (ex : List String) : CStmt → List CStmt
  | .atom a => [.atom (convAtom ex a)]
  | .iife body => body.map (fun a => .atom (convAtom ex a))
  | .onReady _ body => body.map (fun a => .atom (convAtom ex a))

/-- Import requests generated by one top-level statement. -/
def stmtImports (ex : List String) : CStmt → List (String × String)
  | .atom a => atomImports ex a
  | .iife body => body.flatMap (atomImports ex)
  | .onReady _ body => body.flatMap (atomImports ex)

/-- Modelled from the spec: conversion of a whole script body, statement by
statement, in order. -/
def convertBody (ex : List String) (ss : List CStmt) : List CStmt :=
  ss.flatMap (convertStmt ex)

/-- Import requests of a whole script body, in first-seen order. -/
def bodyImports (ex : List String) (ss : List CStmt) : List (String × String) :=
  ss.flatMap (stmtImports ex)

/-- The atoms of a statement, including those inside wrapper bodies, in
source order.  This is the observable used to state hoisting properties:
the executable payload of the statement. -/
def stmtAtoms : CStmt → List CAtom
  | .atom a => [a]
  | .iife body => body
  | .onReady _ body => body

/-- The atoms of a whole script body in source order. -/
def bodyAtoms (ss : List CStmt) : List CAtom :=
  ss.flatMap stmtAtoms

/-- Number of event-wrapper statements in a script body. -/
def countEventWrappers (ss : List CStmt) : Nat :=
  ss.countP (fun s => match s with | .onReady _ _ => true | _ => false)

/-- Number of wrapper statements of any kind (immediately-invoked wrapper
functions or event wrappers) in a script body. -/
def countWrappers (ss : List CStmt) : Nat :=
  ss.countP (fun s => match s with | .atom _ => false | _ => true)

/-- Whether an atom references a recognized namespace (a read or a
qualified assignment). -/
def atomRefsNamespace : CAtom → Bool
  | .nsRead _ _ => true
  | .nsAssign _ _ _ => true
  | _ => false

/-- Number of namespace references in a script body, wrapper bodies
included. -/
def countNsRefs (ss : List CStmt) : Nat :=
  (bodyAtoms ss).countP atomRefsNamespace

/-- Number of occurrences of a given atom in the top level of a script body. -/
def countAtomOcc (a : CAtom) (ss : List CStmt) : Nat :=
  (bodyAtoms ss).count a

/-- Modelled from the spec (data model): a convertible document: a
canonical URL, its ordered include edges, and its script body. -/
structure SDoc where
  url : String
  includes : List String
  body : List CStmt
  deriving DecidableEq, Repr

/-- An import declaration of a converted module: either a bare
side-effect import of a document, or a named import of one member. -/
inductive ImportDecl where
  | bare (url : String)
  | named (ns mem : String)
  deriving DecidableEq, Repr

/-- A converted module: its synthesized import declarations and its
rewritten body. -/
structure ModuleOut where
  imports : List ImportDecl
  body : List CStmt
  deriving DecidableEq, Repr

/-- Modelled from the spec (sections 4.3 and 4.4): conversion of one
document: every include edge becomes a bare side-effect import, every
resolved member reference requests a named import, and the body is
rewritten statement by statement. -/
def convertSDoc (ex : List String) (d : SDoc) : ModuleOut :=
  { imports :=
      d.includes.map ImportDecl.bare ++
        (bodyImports ex d.body).map (fun p => ImportDecl.named p.1 p.2),
    body := convertBody ex d.body }

/- Helper lemmas about script-body conversion, shared by several claims. -/

theorem convertBody_cons (ex : List String) (s : CStmt) (ss : List CStmt) :
    convertBody ex (s :: ss) = convertStmt ex s ++ convertBody ex ss := by
  simp [convertBody]

theorem mem_convertStmt_is_atom (ex : List String) (s : CStmt) :
    ∀ t ∈ convertStmt ex s, ∃ a, t = CStmt.atom a := by
  cases s with
  | atom a =>
      intro t ht
      simp [convertStmt] at ht
      exact ⟨_, ht⟩
  | iife b =>
      intro t ht
      simp [convertStmt] at ht
      obtain ⟨a, _, rfl⟩ := ht
      exact ⟨_, rfl⟩
  | onReady k b =>
      intro t ht
      simp [convertStmt] at ht
      obtain ⟨a, _, rfl⟩ := ht
      exact ⟨_, rfl⟩

theorem mem_convertBody_is_atom (ex : List String) (ss : List CStmt) :
    ∀ t ∈ convertBody ex ss, ∃ a, t = CStmt.atom a := by
  intro t ht
  simp [convertBody, List.mem_flatMap] at ht
  obtain ⟨s, _, hts⟩ := ht
  exact mem_convertStmt_is_atom ex s t hts

theorem countWrappers_convertBody (ex : List String) (ss : List CStmt) :
    countWrappers (convertBody ex ss) = 0 := by
  rw [countWrappers, List.countP_eq_zero]
  intro t ht
  obtain ⟨a, rfl⟩ := mem_convertBody_is_atom ex ss t ht
  simp

theorem countEventWrappers_convertBody (ex : List String) (ss : List CStmt) :
    countEventWrappers (convertBody ex ss) = 0 := by
  rw [countEventWrappers, List.countP_eq_zero]
  intro t ht
  obtain ⟨a, rfl⟩ := mem_convertBody_is_atom ex ss t ht
  simp

theorem bodyAtoms_append (xs ys : List CStmt) :
    bodyAtoms (xs ++ ys) = bodyAtoms xs ++ bodyAtoms ys := by
  simp [bodyAtoms]

theorem bodyAtoms_convertStmt (ex : List String) (s : CStmt) :
    bodyAtoms (convertStmt ex s) = (stmtAtoms s).map (convAtom ex) := by
  cases s with
  | atom a => simp [convertStmt, bodyAtoms, stmtAtoms]
  | iife b =>
      induction b with
      | nil => simp [convertStmt, bodyAtoms, stmtAtoms]
      | cons a rest ih =>
          simp only [convertStmt, bodyAtoms, stmtAtoms, List.map_cons,
            List.flatMap_cons] at *
          simpa using ih
  | onReady k b =>
      induction b with
      | nil => simp [convertStmt, bodyAtoms, stmtAtoms]
      | cons a rest ih =>
          simp only [convertStmt, bodyAtoms, stmtAtoms, List.map_cons,
            List.flatMap_cons] at *
          simpa using ih

theorem bodyAtoms_convertBody (ex : List String) (ss : List CStmt) :
    bodyAtoms (convertBody ex ss) = (bodyAtoms ss).map (convAtom ex) := by
  induction ss with
  | nil => simp [convertBody, bodyAtoms]
  | cons s rest ih =>
      rw [convertBody_cons, bodyAtoms_append, ih,
        bodyAtoms_convertStmt]
      simp [bodyAtoms]

/-- C10: for every top-level call of the form
addEventListener(WebComponentsReady, callback) or
HTMLImports.whenReady(callback), conversion removes the event-wrapper call
and hoists the callback body, rewritten like the rest of the script, to
the top level of the converted module, in source order, so the wrapped
statements execute unconditionally at module load: the converted body
contains no wrapper statement of any kind, and its sequence of atomic
statements is exactly the source atom sequence (wrapper bodies spliced
in place), each atom rewritten by the reference resolver. -/
theorem event_wrappers_removed_and_bodies_hoisted
    (ex : List String) (ss : List CStmt) :
    countEventWrappers (convertBody ex ss) = 0 ∧
    countWrappers (convertBody ex ss) = 0 ∧
    bodyAtoms (convertBody ex ss) = (bodyAtoms ss).map (convAtom ex) :=
  ⟨countEventWrappers_convertBody ex ss, countWrappers_convertBody ex ss,
    bodyAtoms_convertBody ex ss⟩

/-- Document used as the counterexample for C9: no include edges, no
namespace references, but a top-level immediately-invoked wrapper
function.  This mirrors the repository test named
unwraps top-level IIFE. -/
def iifeOnlyDoc : SDoc :=
  { url := "test.html",
    includes := [],
    body := [CStmt.iife [CAtom.plain "console.log(a statement)"]] }

/-- C9 counterexample: a document with zero include edges and zero
namespace references whose converted script body differs from its input
script body, because the top-level immediately-invoked wrapper function is
unwrapped regardless of references (test named unwraps top-level IIFE).
This refutes the claim that zero includes and zero namespace references
alone guarantee the output script text equals the input script text. -/
theorem iife_unwrapped_despite_no_refs :
    iifeOnlyDoc.includes = [] ∧
    countNsRefs iifeOnlyDoc.body = 0 ∧
    (convertSDoc [] iifeOnlyDoc).body ≠ iifeOnlyDoc.body := by
  refine ⟨rfl, rfl, ?_⟩
  decide

/-- C9 (amended): for every document with zero include edges, zero
references to any recognized namespace, and no top-level wrapper
statements (immediately-invoked wrapper functions and event-wrapper calls
are unwrapped regardless of references), the converted output script
body equals the input script body verbatim (so indentation is preserved)
and no import or export declarations are introduced. -/
theorem no_refs_no_includes_no_wrappers_conversion_is_identity
    (ex : List String) (d : SDoc)
    (h1 : d.includes = []) (h2 : countNsRefs d.body = 0)
    (h3 : countWrappers d.body = 0) :
    convertSDoc ex d = { imports := [], body := d.body } := by
  have hbody : ∀ ss : List CStmt, countNsRefs ss = 0 → countWrappers ss = 0 →
      convertBody ex ss = ss ∧ bodyImports ex ss = [] := by
    intro ss
    induction ss with
    | nil => intro _ _; exact ⟨rfl, rfl⟩
    | cons s rest ih =>
        intro hr hw
        rw [countWrappers, List.countP_cons] at hw
        rw [countNsRefs, bodyAtoms, List.flatMap_cons, List.countP_append] at hr
        have hrest : countNsRefs rest = 0 ∧ countWrappers rest = 0 := by
          constructor
          · rw [countNsRefs, bodyAtoms]; omega
          · rw [countWrappers]; omega
        obtain ⟨ihb, ihi⟩ := ih hrest.1 hrest.2
        cases s with
        | iife b => simp at hw
        | onReady k b => simp at hw
        | atom a =>
            have hsr : (stmtAtoms (CStmt.atom a)).countP atomRefsNamespace = 0 := by
              omega
            simp only [stmtAtoms, List.countP_cons, List.countP_nil] at hsr
            have har : atomRefsNamespace a = false := by
              by_contra hc
              simp only [Bool.not_eq_false] at hc
              rw [hc] at hsr
              simp at hsr
            have hconv : convAtom ex a = a := by
              cases a <;> simp_all [atomRefsNamespace, convAtom, convertAtom]
            have himp : atomImports ex a = [] := by
              cases a <;> simp_all [atomRefsNamespace, atomImports, convertAtom]
            constructor
            · rw [convertBody_cons, ihb]
              simp [convertStmt, hconv]
            · rw [bodyImports, List.flatMap_cons]
              rw [bodyImports] at ihi
              rw [ihi]
              simp [stmtImports, himp]
  obtain ⟨hb, hi⟩ := hbody d.body h2 h3
  simp [convertSDoc, h1, hb, hi]

/-- Document used as the witness for the amended C9: plain statements
only. -/
def plainOnlyDoc : SDoc :=
  { url := "index.html",
    includes := [],
    body := [CStmt.atom (CAtom.plain "document.registerElement(foo-elem)")] }

/-- Witness for the amended C9 at a concrete input mirroring the test
checking that scripts that do not need transformation are untouched. -/
theorem no_refs_conversion_identity_witness :
    plainOnlyDoc.includes = [] ∧
    countNsRefs plainOnlyDoc.body = 0 ∧
    countWrappers plainOnlyDoc.body = 0 ∧
    convertSDoc [] plainOnlyDoc = { imports := [], body := plainOnlyDoc.body } :=
  ⟨rfl, rfl, rfl,
    no_refs_no_includes_no_wrappers_conversion_is_identity [] plainOnlyDoc
      rfl rfl rfl⟩

/- ===================================================================
   Claim C7: reference-exclusion handling (spec section 4.3)
   =================================================================== -/

theorem mem_atomImports_not_excluded (ex : List String) (a : CAtom) :
    ∀ p ∈ atomImports ex a, mkPath p.1 p.2 ∉ ex := by
  cases a with
  | nsRead ns mem =>
      intro p hp
      by_cases hx : mkPath ns mem ∈ ex
      · simp [atomImports, convertAtom, hx] at hp
      · simp [atomImports, convertAtom, hx] at hp
        obtain ⟨rfl, rfl⟩ := hp
        exact hx
  | nsAssign ns mem rhs =>
      intro p hp
      by_cases hx : mkPath ns mem ∈ ex
      · simp [atomImports, convertAtom, hx] at hp
      · simp [atomImports, convertAtom, hx] at hp
  | plain s => intro p hp; simp [atomImports, convertAtom] at hp
  | globalWrite n => intro p hp; simp [atomImports, convertAtom] at hp
  | undefLit => intro p hp; simp [atomImports, convertAtom] at hp
  | localRef n => intro p hp; simp [atomImports, convertAtom] at hp
  | exportDecl r n => intro p hp; simp [atomImports, convertAtom] at hp

theorem mem_stmtImports_not_excluded (ex : List String) (s : CStmt) :
    ∀ p ∈ stmtImports ex s, mkPath p.1 p.2 ∉ ex := by
  cases s with
  | atom a => exact mem_atomImports_not_excluded ex a
  | iife b =>
      intro p hp
      simp only [stmtImports, List.mem_flatMap] at hp
      obtain ⟨a, _, hpa⟩ := hp
      exact mem_atomImports_not_excluded ex a p hpa
  | onReady k b =>
      intro p hp
      simp only [stmtImports, List.mem_flatMap] at hp
      obtain ⟨a, _, hpa⟩ := hp
      exact mem_atomImports_not_excluded ex a p hpa

theorem mem_bodyImports_not_excluded (ex : List String) (ss : List CStmt) :
    ∀ p ∈ bodyImports ex ss, mkPath p.1 p.2 ∉ ex := by
  intro p hp
  simp only [bodyImports, List.mem_flatMap] at hp
  obtain ⟨s, _, hps⟩ := hp
  exact mem_stmtImports_not_excluded ex s p hps

/-- C7: for every member access whose path is listed in the
reference-exclusion setting: a read of it is rewritten to the
undefined-sentinel literal and no import for it is emitted anywhere in the
document; an assignment to it is rewritten into an export declaration
re-exporting the right-hand expression under the name of the excluded member;
and these point rewrites propagate to the whole converted body, whose atom
sequence is the source atom sequence mapped through the rewriter. -/
theorem excluded_references_undefined_or_reexported
    (ex : List String) (ns m : String) (ss : List CStmt)
    (h : mkPath ns m ∈ ex) :
    convAtom ex (CAtom.nsRead ns m) = CAtom.undefLit ∧
    (∀ rhs, convAtom ex (CAtom.nsAssign ns m rhs) = CAtom.exportDecl rhs m) ∧
    (ns, m) ∉ bodyImports ex ss ∧
    bodyAtoms (convertBody ex ss) = (bodyAtoms ss).map (convAtom ex) := by
  refine ⟨?_, ?_, ?_, bodyAtoms_convertBody ex ss⟩
  · simp [convAtom, convertAtom, h]
  · intro rhs; simp [convAtom, convertAtom, h]
  · intro hmem
    exact mem_bodyImports_not_excluded ex ss (ns, m) hmem h

/-- Exclusion setting used by the C7 witness, mirroring the tests named
excludes excluded references and handles excluded exported references. -/
def c7Excludes : List String :=
  ["Polymer.DomModule", "Polymer.Settings"]

/-- Script body used by the C7 witness. -/
def c7Body : List CStmt :=
  [CStmt.atom (CAtom.nsRead "Polymer" "DomModule"),
   CStmt.atom (CAtom.nsAssign "Polymer" "Settings" "settings")]

/-- Witness for C7 at the concrete inputs of the two reference-exclusion
tests. -/
theorem excluded_references_witness :
    mkPath "Polymer" "DomModule" ∈ c7Excludes ∧
    convAtom c7Excludes (CAtom.nsRead "Polymer" "DomModule") = CAtom.undefLit ∧
    convAtom c7Excludes (CAtom.nsAssign "Polymer" "Settings" "settings") =
      CAtom.exportDecl "settings" "Settings" ∧
    ("Polymer", "DomModule") ∉ bodyImports c7Excludes c7Body :=
  ⟨by decide,
   (excluded_references_undefined_or_reexported c7Excludes "Polymer" "DomModule"
      c7Body (by decide)).1,
   (excluded_references_undefined_or_reexported c7Excludes "Polymer" "Settings"
      c7Body (by decide)).2.1 "settings",
   (excluded_references_undefined_or_reexported c7Excludes "Polymer" "DomModule"
      c7Body (by decide)).2.2.1⟩

/- ===================================================================
   Claim C6: maintained documents (spec section 4.6)
   =================================================================== -/

/-- Modelled from the spec: an embedded script of a maintained document,
carrying whether its script tag is module-typed. -/
structure HScript where
  isModule : Bool
  body : List CStmt
  deriving DecidableEq, Repr

/-- Modelled from the spec: a document marked maintained: surrounding
markup fragments, preserved as markup, plus its embedded scripts. -/
structure HDoc where
  markup : List String
  scripts : List HScript
  deriving DecidableEq, Repr

/-- Whether a statement writes to a global configuration property. -/
def stmtHasGlobalWrite (s : CStmt) : Bool :=
  (stmtAtoms s).any (fun a => match a with | CAtom.globalWrite _ => true | _ => false)

/-- Whether an embedded script writes to global configuration properties
(such scripts must keep running as classic scripts before any module
loads, per the test named handles inline scripts that write to global
configuration properties). -/
def scriptWritesGlobalConfig (s : HScript) : Bool :=
  s.body.any stmtHasGlobalWrite

/-- Modelled from the spec (section 4.6) and the tests named converts
scripts in preserved html properly and handles inline scripts that write
to global configuration properties: conversion of one embedded script of a
maintained document.  A script that is already module-typed is left
completely untouched; a script that writes to global configuration
properties is also left untouched; every other script body is rewritten
like any other script body and the script is retyped as a module. -/
def convertMaintainedScript (ex : List String) (s : HScript) : HScript :=
  if s.isModule then s
  else if scriptWritesGlobalConfig s then s
  else { isModule := true, body := convertBody ex s.body }

/-- Modelled from the spec (section 4.6): conversion of a maintained
document: structural relocation is skipped, the surrounding markup is
preserved verbatim, and each embedded script is converted in place. -/
def convertMaintained (ex : List String) (d : HDoc) : HDoc :=
  { markup := d.markup,
    scripts := d.scripts.map (convertMaintainedScript ex) }

/-- Non-module embedded script used by the C6 counterexample. -/
def mS0 : HScript :=
  { isModule := false, body := [CStmt.atom (CAtom.nsRead "Polymer" "Element")] }

/-- Module-typed embedded script used by the C6 counterexample, with the
same convertible body as the non-module one. -/
def mS1 : HScript :=
  { isModule := true, body := [CStmt.atom (CAtom.nsRead "Polymer" "Element")] }

/-- Maintained document used by the C6 counterexample and witness. -/
def mDoc : HDoc :=
  { markup := ["div-some-html"], scripts := [mS0, mS1] }

/-- C6 counterexample: in a maintained document, it is the non-module
embedded script that is rewritten (and retyped as a module), while the
module-typed script with the very same convertible body is left completely
untouched, mirroring the test named converts scripts in preserved html
properly (whose module script is annotated: this should not be changed
because it is a module already).  This refutes the claim, which states the
opposite assignment (module-typed rewritten, non-module untouched). -/
theorem maintained_nonmodule_rewritten_module_untouched :
    mS0.isModule = false ∧ mS1.isModule = true ∧ mS1.body = mS0.body ∧
    (convertMaintained [] mDoc).scripts =
      [{ isModule := true, body := [CStmt.atom (CAtom.localRef "Element")] }, mS1] ∧
    ({ isModule := true, body := [CStmt.atom (CAtom.localRef "Element")] } : HScript) ≠ mS0 ∧
    (convertMaintained [] mDoc).markup = mDoc.markup := by
  refine ⟨rfl, rfl, rfl, ?_, ?_, rfl⟩ <;> decide

/-- C6 (amended): for every document marked maintained, structural
relocation is skipped and its surrounding markup preserved verbatim;
among its embedded scripts, the module-typed ones are left completely
untouched, scripts writing to global configuration properties are also
left untouched, and every other (non-module) script is rewritten like any
other script body and retyped as a module. -/
theorem maintained_markup_preserved_scripts_converted
    (ex : List String) (d : HDoc) (i : Nat) (s : HScript)
    (h : d.scripts[i]? = some s) :
    (convertMaintained ex d).markup = d.markup ∧
    (s.isModule = true → (convertMaintained ex d).scripts[i]? = some s) ∧
    (scriptWritesGlobalConfig s = true →
      (convertMaintained ex d).scripts[i]? = some s) ∧
    (s.isModule = false → scriptWritesGlobalConfig s = false →
      (convertMaintained ex d).scripts[i]? =
        some { isModule := true, body := convertBody ex s.body }) := by
  refine ⟨rfl, ?_, ?_, ?_⟩
  · intro hm
    simp [convertMaintained, List.getElem?_map, h, convertMaintainedScript, hm]
  · intro hg
    by_cases hm : s.isModule
    · simp [convertMaintained, List.getElem?_map, h, convertMaintainedScript, hm]
    · simp [convertMaintained, List.getElem?_map, h, convertMaintainedScript, hm, hg]
  · intro hm hg
    simp [convertMaintained, List.getElem?_map, h, convertMaintainedScript, hm, hg]

/-- Witness for the amended C6 at the concrete counterexample document:
the module-typed script at index 1 is untouched, and the non-module script
at index 0 is rewritten and retyped. -/
theorem maintained_conversion_witness :
    mDoc.scripts[1]? = some mS1 ∧ mS1.isModule = true ∧
    (convertMaintained [] mDoc).scripts[1]? = some mS1 ∧
    mDoc.scripts[0]? = some mS0 ∧ mS0.isModule = false ∧
    scriptWritesGlobalConfig mS0 = false ∧
    (convertMaintained [] mDoc).scripts[0]? =
      some { isModule := true, body := convertBody [] mS0.body } :=
  ⟨by decide, by decide,
   (maintained_markup_preserved_scripts_converted [] mDoc 1 mS1 (by decide)).2.1
     (by decide),
   by decide, by decide, by decide,
   (maintained_markup_preserved_scripts_converted [] mDoc 0 mS0
     (by decide)).2.2.2 (by decide) (by decide)⟩

/- ===================================================================
   Claim C4: collision-free import aliasing (spec section 4.4)
   =================================================================== -/

/-- Modelled from the spec (data model): an Import Request: a demand for
one Export Binding (identified by its source document and member name) to
be made available locally in the consuming document. -/
structure ImportReq where
  source : String
  member : String
  deriving DecidableEq, Repr

/-- Modelled from the spec (section 4.4): the suffix search: candidate
local names base$0, base$1, ... are tried in order against the set of
names already used in the document, and the first free one is taken.  The
fuel argument bounds the search; it is instantiated with one more than the
number of used names, which always suffices. -/
def pickAliasAux (used : List String) (base : String) : Nat → Nat → Option String
  | 0, _ => none
  | fuel + 1, i =>
      if (base ++ "$" ++ Nat.repr i) ∈ used then pickAliasAux used base fuel (i + 1)
      else some (base ++ "$" ++ Nat.repr i)

/-- Modelled from the spec (section 4.4): choice of the local name for
one import request: the member name itself if it does not collide with a
local identifier or an earlier import, otherwise the first free
numerically suffixed variant. -/
def pickAlias (used : List String) (base : String) : Option String :=
  if base ∈ used then pickAliasAux used base (used.length + 1) 0 else some base

/-- Modelled from the spec (section 4.4): alias assignment for the
incoming import requests of a document in first-seen order, from the
local identifiers of the document; each assigned alias joins the used set
for the requests after it.  This is a pure function of the own locals and
requests of the document, so the same input always produces the same
suffix sequence. -/
def assignAliases (used : List String) : List ImportReq → Option (List (ImportReq × String))
  | [] => some []
  | r :: rs =>
      match pickAlias used r.member with
      | none => none
      | some a =>
          match assignAliases (a :: used) rs with
          | none => none
          | some rest => some ((r, a) :: rest)

/-- The alias a rewritten reference to a binding uses: the first table
entry for that binding. -/
def lookupAlias (out : List (ImportReq × String)) (r : ImportReq) : Option String :=
  (out.find? (fun p => p.1 == r)).map Prod.snd

theorem pickAliasAux_not_mem (used : List String) (base : String) :
    ∀ fuel i a, pickAliasAux used base fuel i = some a → a ∉ used := by
  intro fuel
  induction fuel with
  | zero => intro i a h; simp [pickAliasAux] at h
  | succ f ih =>
      intro i a h
      rw [pickAliasAux] at h
      by_cases hm : (base ++ "$" ++ Nat.repr i) ∈ used
      · rw [if_pos hm] at h
        exact ih (i + 1) a h
      · rw [if_neg hm] at h
        obtain rfl : _ = a := Option.some.inj h
        exact hm

theorem pickAliasAux_shape (used : List String) (base : String) :
    ∀ fuel i a, pickAliasAux used base fuel i = some a →
      ∃ n, a = base ++ "$" ++ Nat.repr n := by
  intro fuel
  induction fuel with
  | zero => intro i a h; simp [pickAliasAux] at h
  | succ f ih =>
      intro i a h
      rw [pickAliasAux] at h
      by_cases hm : (base ++ "$" ++ Nat.repr i) ∈ used
      · rw [if_pos hm] at h
        exact ih (i + 1) a h
      · rw [if_neg hm] at h
        obtain rfl : _ = a := Option.some.inj h
        exact ⟨i, rfl⟩

theorem pickAlias_not_mem (used : List String) (base a : String)
    (h : pickAlias used base = some a) : a ∉ used := by
  rw [pickAlias] at h
  by_cases hm : base ∈ used
  · rw [if_pos hm] at h
    exact pickAliasAux_not_mem used base (used.length + 1) 0 a h
  · rw [if_neg hm] at h
    obtain rfl : base = a := Option.some.inj h
    exact hm

theorem pickAlias_shape_of_mem (used : List String) (base a : String)
    (hm : base ∈ used) (h : pickAlias used base = some a) :
    ∃ n, a = base ++ "$" ++ Nat.repr n := by
  rw [pickAlias, if_pos hm] at h
  exact pickAliasAux_shape used base (used.length + 1) 0 a h

theorem pickAlias_base_mem (used : List String) (base a : String)
    (h : pickAlias used base = some a) : base ∈ a :: used := by
  rw [pickAlias] at h
  by_cases hm : base ∈ used
  · exact List.mem_cons_of_mem a hm
  · rw [if_neg hm] at h
    obtain rfl : base = a := Option.some.inj h
    exact List.mem_cons_self base used
theorem assignAliases_sound (rs : List ImportReq) :
    ∀ used out, assignAliases used rs = some out →
      (out.map Prod.snd).Nodup ∧ ∀ p ∈ out, p.2 ∉ used := by
  induction rs with
  | nil =>
      intro used out h
      simp only [assignAliases, Option.some.injEq] at h
      subst h
      simp
  | cons r rs ih =>
      intro used out h
      cases hp : pickAlias used r.member with
      | none => simp [assignAliases, hp] at h
      | some a =>
          cases hrest : assignAliases (a :: used) rs with
          | none => simp [assignAliases, hp, hrest] at h
          | some rest =>
              simp only [assignAliases, hp, hrest, Option.some.injEq] at h
              subst h
              obtain ⟨hnd, hmem⟩ := ih (a :: used) rest hrest
              constructor
              · simp only [List.map_cons, List.nodup_cons]
                refine ⟨?_, hnd⟩
                intro hcon
                obtain ⟨p, hpmem, hpa⟩ := List.mem_map.mp hcon
                have hni := hmem p hpmem
                rw [hpa] at hni
                exact hni (List.mem_cons_self a used)
              · intro p hpmem
                rcases List.mem_cons.mp hpmem with h1 | h2
                · subst h1
                  exact pickAlias_not_mem used r.member a hp
                · intro hc
                  exact (hmem p h2) (List.mem_cons_of_mem a hc)

theorem assignAliases_fst (rs : List ImportReq) :
    ∀ used out, assignAliases used rs = some out → out.map Prod.fst = rs := by
  induction rs with
  | nil =>
      intro used out h
      simp only [assignAliases, Option.some.injEq] at h
      subst h
      simp
  | cons r rs ih =>
      intro used out h
      cases hp : pickAlias used r.member with
      | none => simp [assignAliases, hp] at h
      | some a =>
          cases hrest : assignAliases (a :: used) rs with
          | none => simp [assignAliases, hp, hrest] at h
          | some rest =>
              simp only [assignAliases, hp, hrest, Option.some.injEq] at h
              subst h
              simp [ih (a :: used) rest hrest]

theorem assignAliases_shape (rs : List ImportReq) :
    ∀ used out, assignAliases used rs = some out →
      ∀ p ∈ out, p.1.member ∈ used →
        ∃ n, p.2 = p.1.member ++ "$" ++ Nat.repr n := by
  induction rs with
  | nil =>
      intro used out h
      simp only [assignAliases, Option.some.injEq] at h
      subst h
      simp
  | cons r rs ih =>
      intro used out h
      cases hp : pickAlias used r.member with
      | none => simp [assignAliases, hp] at h
      | some a =>
          cases hrest : assignAliases (a :: used) rs with
          | none => simp [assignAliases, hp, hrest] at h
          | some rest =>
              simp only [assignAliases, hp, hrest, Option.some.injEq] at h
              subst h
              intro p hpmem hbase
              rcases List.mem_cons.mp hpmem with h1 | h2
              · subst h1
                exact pickAlias_shape_of_mem used r.member a hbase hp
              · exact ih (a :: used) rest hrest p h2
                  (List.mem_cons_of_mem a hbase)

theorem assignAliases_colliders_suffixed (rs : List ImportReq) :
    ∀ used out, assignAliases used rs = some out →
      out.Pairwise (fun x y => x.1.member = y.1.member →
        ∃ n, y.2 = y.1.member ++ "$" ++ Nat.repr n) := by
  induction rs with
  | nil =>
      intro used out h
      simp only [assignAliases, Option.some.injEq] at h
      subst h
      simp
  | cons r rs ih =>
      intro used out h
      cases hp : pickAlias used r.member with
      | none => simp [assignAliases, hp] at h
      | some a =>
          cases hrest : assignAliases (a :: used) rs with
          | none => simp [assignAliases, hp, hrest] at h
          | some rest =>
              simp only [assignAliases, hp, hrest, Option.some.injEq] at h
              subst h
              refine List.Pairwise.cons ?_ (ih (a :: used) rest hrest)
              intro y hy hxy
              have hbm : r.member ∈ a :: used := pickAlias_base_mem used r.member a hp
              have hym : y.1.member ∈ a :: used := hxy ▸ hbm
              exact assignAliases_shape rs (a :: used) rest hrest y hy hym

theorem lookupAlias_consistent (out : List (ImportReq × String))
    (hnd : (out.map Prod.fst).Nodup) :
    ∀ p ∈ out, lookupAlias out p.1 = some p.2 := by
  induction out with
  | nil => intro p hp; simp at hp
  | cons q rest ih =>
      intro p hp
      simp only [List.map_cons, List.nodup_cons] at hnd
      rcases List.mem_cons.mp hp with rfl | h2
      · simp [lookupAlias]
      · have hne : q.1 ≠ p.1 := by
          intro he
          exact hnd.1 (he ▸ List.mem_map_of_mem Prod.fst h2)
        rw [lookupAlias, List.find?_cons_of_neg _ (by simp [hne])]
        exact ih hnd.2 p h2

/-- C4: for every document importing distinct bindings, given the
local identifiers of the document and its import requests in first-seen
order (requests for the same binding already collapsed), the synthesized
aliases are pairwise distinct and disjoint from the local identifiers;
whenever a request collides with an earlier request of the same member
name, it receives a numeric suffix appended to the local name (the base$N
form); and every rewritten reference, looked up through the alias table,
uses exactly the alias of its own binding.  Alias assignment is a pure
function of the own locals and requests of the document, so the same
input always produces
the same suffix sequence, independent of other documents. -/
theorem import_alias_collision_resolution
    (locals : List String) (reqs : List ImportReq)
    (out : List (ImportReq × String))
    (hout : assignAliases locals reqs = some out) (hnd : reqs.Nodup) :
    ((out.map Prod.snd).Nodup ∧ ∀ p ∈ out, p.2 ∉ locals) ∧
    out.Pairwise (fun x y => x.1.member = y.1.member →
      ∃ n, y.2 = y.1.member ++ "$" ++ Nat.repr n) ∧
    (∀ p ∈ out, lookupAlias out p.1 = some p.2) := by
  refine ⟨assignAliases_sound reqs locals out hout,
    assignAliases_colliders_suffixed reqs locals out hout, ?_⟩
  have hfst : out.map Prod.fst = reqs := assignAliases_fst reqs locals out hout
  exact lookupAlias_consistent out (hfst ▸ hnd)

/-- Local identifiers of the C4 witness document, mirroring the test named
Import aliases do not conflict with local identifiers or other imports. -/
def c4Locals : List String :=
  ["foo", "foo$1", "foo$2"]

/-- Import requests of the C4 witness document, in first-seen order. -/
def c4Reqs : List ImportReq :=
  [{ source := "NS1-foo.js", member := "foo" },
   { source := "NS2-foo.js", member := "foo" },
   { source := "NS3-foo.js", member := "foo" }]

/-- Alias table the model assigns for the C4 witness document. -/
def c4Out : List (ImportReq × String) :=
  [({ source := "NS1-foo.js", member := "foo" }, "foo$0"),
   ({ source := "NS2-foo.js", member := "foo" }, "foo$3"),
   ({ source := "NS3-foo.js", member := "foo" }, "foo$4")]

/-- Witness for C4 at the concrete input of the collision test: the three
identically named imports receive the aliases foo$0, foo$3 and foo$4,
exactly as the test expects, and the general theorem applies there. -/
theorem import_alias_witness :
    assignAliases c4Locals c4Reqs = some c4Out ∧
    c4Reqs.Nodup ∧
    ((c4Out.map Prod.snd).Nodup ∧ ∀ p ∈ c4Out, p.2 ∉ c4Locals) :=
  ⟨by decide, by decide,
   (import_alias_collision_resolution c4Locals c4Reqs c4Out (by decide)
     (by decide)).1⟩
/- ===================================================================
   Claims C2 and C3: the Namespace Registry (spec section 4.2)
   =================================================================== -/

/-- Modelled from the spec: an assignment statement inside the body of a
function assigned as a namespace member: either a namespace-qualified
write (Ns.m = e) or a this-qualified write (this.m = e). -/
inductive InnerStmt where
  | qualWrite (ns m : String)
  | thisWrite (m : String)
  deriving DecidableEq, Repr

/-- Modelled from the spec (section 4.2): one namespace-member assignment
observed by the static pass of the registry: either an assignment of a
non-function expression, or an assignment of a function literal whose body
may itself contain assignments into namespace members. -/
inductive RegItem where
  | assign (ns m : String)
  | assignFn (ns m : String) (body : List InnerStmt)
  deriving DecidableEq, Repr

/-- A document as seen by the Namespace Registry pass. -/
structure RegDoc where
  url : String
  items : List RegItem
  deriving DecidableEq, Repr

/-- Modelled from the spec (data model): an Export Binding: owning
namespace, member name, declaring document, and whether the assigned value
is a function literal. -/
structure Binding where
  ns : String
  member : String
  declaringDoc : String
  isFn : Bool
  deriving DecidableEq, Repr

/-- The (namespace, member) key of a binding. -/
def bindingKey (b : Binding) : String × String :=
  (b.ns, b.member)

/-- Modelled from the spec (section 4.2): the structural error raised when
an Export Binding would be declared by two different documents. -/
inductive RegError where
  | conflictingExport (ns m firstDoc secondDoc : String)
  deriving DecidableEq, Repr

/-- Modelled from the test named convert writes into setter calls: setter
recognition.  A function assigned as a namespace member whose body is
exactly one write into another member of the graph (namespace-qualified,
or this-qualified against the enclosing namespace) is recorded as a setter
for that member. -/
def setterTarget (enclosing : String) : List InnerStmt → Option (String × String)
  | [InnerStmt.qualWrite ns t] => some (ns, t)
  | [InnerStmt.thisWrite t] => some (enclosing, t)
  | _ => none

/-- The running state of the registry: the Export Bindings discovered so far,
the recognized setters (keyed by the member they write), and the
cross-document writes that were rewritten into setter calls. -/
structure RegState where
  bindings : List Binding
  setters : List ((String × String) × (String × String))
  setterRewrites : List (String × String × String)
  deriving DecidableEq, Repr

/-- The empty registry. -/
def initRegState : RegState :=
  { bindings := [], setters := [], setterRewrites := [] }

/-- Lookup of an existing binding by (namespace, member). -/
def findBinding (bs : List Binding) (ns m : String) : Option Binding :=
  bs.find? (fun b => b.ns == ns && b.member == m)

/-- Lookup of a registered setter for a member. -/
def findSetter (st : RegState) (ns m : String) : Option (String × String) :=
  (st.setters.find? (fun p => p.1 == (ns, m))).map Prod.snd

/-- Modelled from the spec (section 4.2) and the test named convert writes
into setter calls: handling of one namespace-member assignment.  If no
binding exists for the member, the assignment declares it in the current
document.  A later assignment in the same document is a plain write (it
contributes to the mutability count, not a new declaration).  An
assignment in a different document is rewritten into a call of the
registered setter of the member when one exists; with no setter the registry
fails with a ConflictingExportError naming both documents, rather than
merging the declarations or silently picking one. -/
def declareOrRewrite (u ns m : String) (isFn : Bool) (st : RegState) :
    Except RegError RegState :=
  match findBinding st.bindings ns m with
  | none =>
      Except.ok { st with bindings :=
        { ns := ns, member := m, declaringDoc := u, isFn := isFn } :: st.bindings }
  | some b =>
      if b.declaringDoc = u then Except.ok st
      else
        match findSetter st ns m with
        | some s =>
            Except.ok { st with setterRewrites := (u, s.1, s.2) :: st.setterRewrites }
        | none => Except.error (RegError.conflictingExport ns m b.declaringDoc u)

/-- Registry handling of one item of a document. -/
def stepItem (u : String) (st : RegState) : RegItem → Except RegError RegState
  | RegItem.assign ns m => declareOrRewrite u ns m false st
  | RegItem.assignFn ns m body =>
      match declareOrRewrite u ns m true st with
      | Except.error e => Except.error e
      | Except.ok st1 =>
          match setterTarget ns body with
          | some t => Except.ok { st1 with setters := (t, (ns, m)) :: st1.setters }
          | none => Except.ok st1

/-- Registry pass over the items of one document, in order. -/
def runItems (u : String) : RegState → List RegItem → Except RegError RegState
  | st, [] => Except.ok st
  | st, it :: its =>
      match stepItem u st it with
      | Except.error e => Except.error e
      | Except.ok st1 => runItems u st1 its

/-- Registry pass over the documents of the graph, in order. -/
def runDocs : RegState → List RegDoc → Except RegError RegState
  | st, [] => Except.ok st
  | st, d :: ds =>
      match runItems d.url st d.items with
      | Except.error e => Except.error e
      | Except.ok st1 => runDocs st1 ds

/-- Modelled from the spec (section 4.2): the whole-graph Namespace
Registry construction: one static pass per document, in order, before any
rewriting. -/
def buildRegistry (docs : List RegDoc) : Except RegError RegState :=
  runDocs initRegState docs

/-- Whether registry construction succeeded. -/
def regOk (e : Except RegError RegState) : Bool :=
  match e with
  | Except.ok _ => true
  | Except.error _ => false

/-- The bindings of a successful registry construction. -/
def regBindings (e : Except RegError RegState) : List Binding :=
  match e with
  | Except.ok r => r.bindings
  | Except.error _ => []

theorem findBinding_none_key_not_mem (bs : List Binding) (ns m : String)
    (h : findBinding bs ns m = none) : (ns, m) ∉ bs.map bindingKey := by
  rw [findBinding, List.find?_eq_none] at h
  intro hmem
  obtain ⟨b, hb, hkey⟩ := List.mem_map.mp hmem
  have hnb := h b hb
  simp only [bindingKey, Prod.mk.injEq] at hkey
  simp [hkey.1, hkey.2] at hnb

theorem declareOrRewrite_nodup (u ns m : String) (isFn : Bool)
    (st st1 : RegState) (hnd : (st.bindings.map bindingKey).Nodup)
    (h : declareOrRewrite u ns m isFn st = Except.ok st1) :
    (st1.bindings.map bindingKey).Nodup := by
  cases hf : findBinding st.bindings ns m with
  | none =>
      simp only [declareOrRewrite, hf, Except.ok.injEq] at h
      subst h
      simp only [List.map_cons, List.nodup_cons]
      exact ⟨findBinding_none_key_not_mem st.bindings ns m hf, hnd⟩
  | some b =>
      by_cases hd : b.declaringDoc = u
      · simp only [declareOrRewrite, hf, if_pos hd, Except.ok.injEq] at h
        subst h
        exact hnd
      · cases hs : findSetter st ns m with
        | none => simp [declareOrRewrite, hf, if_neg hd, hs] at h
        | some s =>
            simp only [declareOrRewrite, hf, if_neg hd, hs, Except.ok.injEq] at h
            subst h
            exact hnd

theorem stepItem_nodup (u : String) (st st1 : RegState) (it : RegItem)
    (hnd : (st.bindings.map bindingKey).Nodup)
    (h : stepItem u st it = Except.ok st1) :
    (st1.bindings.map bindingKey).Nodup := by
  cases it with
  | assign ns m => exact declareOrRewrite_nodup u ns m false st st1 hnd h
  | assignFn ns m body =>
      cases hd : declareOrRewrite u ns m true st with
      | error e => simp [stepItem, hd] at h
      | ok st2 =>
          have hnd2 := declareOrRewrite_nodup u ns m true st st2 hnd hd
          cases hst : setterTarget ns body with
          | none =>
              simp only [stepItem, hd, hst, Except.ok.injEq] at h
              subst h
              exact hnd2
          | some t =>
              simp only [stepItem, hd, hst, Except.ok.injEq] at h
              subst h
              exact hnd2

theorem runItems_nodup (u : String) (its : List RegItem) :
    ∀ st st1, (st.bindings.map bindingKey).Nodup →
      runItems u st its = Except.ok st1 →
      (st1.bindings.map bindingKey).Nodup := by
  induction its with
  | nil =>
      intro st st1 hnd h
      simp only [runItems, Except.ok.injEq] at h
      subst h
      exact hnd
  | cons it its ih =>
      intro st st1 hnd h
      cases hs : stepItem u st it with
      | error e => simp [runItems, hs] at h
      | ok st2 =>
          simp only [runItems, hs] at h
          exact ih st2 st1 (stepItem_nodup u st st2 it hnd hs) h

theorem runDocs_nodup (ds : List RegDoc) :
    ∀ st st1, (st.bindings.map bindingKey).Nodup →
      runDocs st ds = Except.ok st1 →
      (st1.bindings.map bindingKey).Nodup := by
  induction ds with
  | nil =>
      intro st st1 hnd h
      simp only [runDocs, Except.ok.injEq] at h
      subst h
      exact hnd
  | cons d ds ih =>
      intro st st1 hnd h
      cases hr : runItems d.url st d.items with
      | error e => simp [runDocs, hr] at h
      | ok st2 =>
          simp only [runDocs, hr] at h
          exact ih st2 st1 (runItems_nodup d.url d.items st st2 hnd hr) h

/-- C2 (amended): for every conversion run whose registry construction
succeeds, there is at most one Export Binding per (namespace, member-name)
pair across the whole document graph; an assignment to an
already-declared member from a second document is rewritten into a call
of the registered setter of the member when one exists; and when no setter
exists the registry fails with a reported ConflictingExportError naming
both documents, rather than merging the declarations or silently picking
one. -/
theorem conflicting_exports_reported_not_merged
    (docs : List RegDoc) (h : regOk (buildRegistry docs) = true) :
    ((regBindings (buildRegistry docs)).map bindingKey).Nodup ∧
    (∀ u ns m isFn st b, findBinding st.bindings ns m = some b →
      b.declaringDoc ≠ u → findSetter st ns m = none →
      declareOrRewrite u ns m isFn st =
        Except.error (RegError.conflictingExport ns m b.declaringDoc u)) ∧
    (∀ u ns m isFn st b s, findBinding st.bindings ns m = some b →
      b.declaringDoc ≠ u → findSetter st ns m = some s →
      declareOrRewrite u ns m isFn st =
        Except.ok { st with setterRewrites := (u, s.1, s.2) :: st.setterRewrites }) := by
  refine ⟨?_, ?_, ?_⟩
  · cases hb : buildRegistry docs with
    | error e => rw [hb] at h; simp [regOk] at h
    | ok reg =>
        simp only [regBindings]
        exact runDocs_nodup docs initRegState reg (by simp [initRegState]) hb
  · intro u ns m isFn st b hf hd hs
    simp [declareOrRewrite, hf, if_neg hd, hs]
  · intro u ns m isFn st b s hf hd hs
    simp [declareOrRewrite, hf, if_neg hd, hs]

/-- The settings.html document of the test named convert writes into
setter calls, as seen by the registry pass: it declares Polymer.foo, a
setter setFoo for it (whose body namespace-qualifies its write), the
namespace object member Polymer.bar.baz, and a setter setBaz for it
(whose body this-qualifies its write). -/
def settingsDoc : RegDoc :=
  { url := "settings.html",
    items :=
      [RegItem.assign "Polymer" "foo",
       RegItem.assignFn "Polymer" "setFoo" [InnerStmt.qualWrite "Polymer" "foo"],
       RegItem.assign "Polymer.bar" "baz",
       RegItem.assignFn "Polymer.bar" "setBaz" [InnerStmt.thisWrite "baz"]] }

/-- The test.html document of the same test: it assigns Polymer.foo and
Polymer.bar.baz, both already declared by settings.html. -/
def testDoc : RegDoc :=
  { url := "test.html",
    items :=
      [RegItem.assign "Polymer" "foo",
       RegItem.assign "Polymer.bar" "baz"] }

/-- Whether a document contains an assignment into the given namespace
member. -/
def docAssigns (d : RegDoc) (ns m : String) : Bool :=
  d.items.any (fun it =>
    match it with
    | RegItem.assign ns2 m2 => ns2 == ns && m2 == m
    | RegItem.assignFn ns2 m2 _ => ns2 == ns && m2 == m)

/-- C2 counterexample: Polymer.foo is assigned by two different documents
(settings.html and test.html, mirroring the test named convert writes into
setter calls), yet registry construction succeeds: the second document has its
assignments are rewritten into setter calls instead of failing with a
ConflictingExportError.  This refutes the claim statement that a member
assigned by two different documents makes the conversion fail. -/
theorem same_member_assigned_by_two_documents_succeeds :
    docAssigns settingsDoc "Polymer" "foo" = true ∧
    docAssigns testDoc "Polymer" "foo" = true ∧
    settingsDoc.url ≠ testDoc.url ∧
    regOk (buildRegistry [settingsDoc, testDoc]) = true ∧
    ("test.html", "Polymer", "setFoo") ∈
      (match buildRegistry [settingsDoc, testDoc] with
       | Except.ok r => r.setterRewrites
       | Except.error _ => []) := by
  refine ⟨rfl, rfl, ?_, rfl, ?_⟩ <;> decide

/-- Witness for the amended C2 at the setter-test documents: registry
construction succeeds there and the binding keys are pairwise distinct. -/
theorem conflicting_exports_witness :
    regOk (buildRegistry [settingsDoc, testDoc]) = true ∧
    ((regBindings (buildRegistry [settingsDoc, testDoc])).map bindingKey).Nodup :=
  ⟨by decide,
   (conflicting_exports_reported_not_merged [settingsDoc, testDoc] (by decide)).1⟩

/- ===================================================================
   Claim C3: export mutability (spec section 4.2)
   =================================================================== -/

/-- Number of namespace-qualified assignments this item makes into the
given member (the assignment itself when it targets the member, plus
namespace-qualified writes inside an assigned function body). -/
def itemQualAssigns (ns m : String) : RegItem → Nat
  | RegItem.assign ns2 m2 => if ns2 = ns ∧ m2 = m then 1 else 0
  | RegItem.assignFn ns2 m2 body =>
      (if ns2 = ns ∧ m2 = m then 1 else 0) +
        body.countP (fun s =>
          match s with
          | InnerStmt.qualWrite ns3 m3 => ns3 == ns && m3 == m
          | InnerStmt.thisWrite _ => false)

/-- Number of this-qualified assignments into the given member made inside
function bodies assigned to sibling members of the same namespace. -/
def itemThisAssigns (ns m : String) : RegItem → Nat
  | RegItem.assignFn ns2 _ body =>
      if ns2 = ns then
        body.countP (fun s =>
          match s with
          | InnerStmt.thisWrite m3 => m3 == m
          | InnerStmt.qualWrite _ _ => false)
      else 0
  | RegItem.assign _ _ => 0

/-- Namespace-qualified assignments into a member across one document. -/
def docQualAssigns (ns m : String) (d : RegDoc) : Nat :=
  (d.items.map (itemQualAssigns ns m)).sum

/-- This-qualified assignments into a member across one document. -/
def docThisAssigns (ns m : String) (d : RegDoc) : Nat :=
  (d.items.map (itemThisAssigns ns m)).sum

/-- Modelled from the spec (section 4.2) and the test named convert writes
into setter calls: the mutability computation the code performs.  A member
is mutable when its declaring document namespace-qualified-assigns it more
than once; this-qualified assignments inside sibling setter bodies are not
counted (the deficiency the note in the test flags with: we do not yet
get that baz cannot be const here), and assignments from other documents are
rewritten into setter calls before this count. -/
def isMutable (docs : List RegDoc) (b : Binding) : Bool :=
  match docs.find? (fun d => d.url == b.declaringDoc) with
  | some d => decide (2 ≤ docQualAssigns b.ns b.member d)
  | none => false

/-- The binding syntax an Export Binding is emitted with. -/
inductive ExportKind where
  | constBinding
  | letBinding
  | functionBinding
  deriving DecidableEq, Repr

/-- Modelled from the spec (section 4.4): exports use mutable-binding
syntax only for bindings the registry marked mutable; a function literal
assigned exactly once becomes a function binding, anything else an
immutable const binding. -/
def exportKindOf (docs : List RegDoc) (b : Binding) : ExportKind :=
  if isMutable docs b then ExportKind.letBinding
  else if b.isFn then ExportKind.functionBinding
  else ExportKind.constBinding

/-- The binding declared for Polymer.bar.baz by settings.html. -/
def bazBinding : Binding :=
  { ns := "Polymer.bar", member := "baz",
    declaringDoc := "settings.html", isFn := false }

/-- The binding declared for Polymer.foo by settings.html. -/
def fooBinding : Binding :=
  { ns := "Polymer", member := "foo",
    declaringDoc := "settings.html", isFn := false }

/-- C3: evaluation of the modelled code at the failing input of the test
named convert writes into setter calls.  Polymer.bar.baz is assigned in
two places in its declaring document (once in the namespace object literal
and once this-qualified inside the sibling setter setBaz), so by the claim
it must be exported with mutable-binding syntax; the code does not count
the this-qualified assignment and exports it as an immutable const
binding, while the sibling Polymer.foo, assigned twice via
namespace-qualified writes, is correctly exported mutable.  The own
comment acknowledges the deficiency. -/
theorem this_qualified_assignment_not_counted_for_mutability :
    bazBinding ∈ regBindings (buildRegistry [settingsDoc]) ∧
    docQualAssigns "Polymer.bar" "baz" settingsDoc = 1 ∧
    docThisAssigns "Polymer.bar" "baz" settingsDoc = 1 ∧
    exportKindOf [settingsDoc] bazBinding = ExportKind.constBinding ∧
    fooBinding ∈ regBindings (buildRegistry [settingsDoc]) ∧
    docQualAssigns "Polymer" "foo" settingsDoc = 2 ∧
    exportKindOf [settingsDoc] fooBinding = ExportKind.letBinding := by
  decide

/- ===================================================================
   Claim C5: this-references inside namespace methods (spec section 4.3)
   =================================================================== -/

mutual
/-- Modelled from the spec (section 4.3): an expression inside the body of
a function assigned as a namespace member: a this-qualified access of a
sibling member, a plain reference, a call, a nested plain function
expression, or a nested arrow function. -/
inductive NsExpr where
  | thisProp (p : String)
  | ref (s : String)
  | call (f : NsExpr) (args : NsList)
  | funcE (body : NsList)
  | arrowE (body : NsList)
/-- A list of namespace-method expressions (the custom list makes the
mutual structural recursion explicit). -/
inductive NsList where
  | nil
  | cons (e : NsExpr) (rest : NsList)
end

mutual
/-- Modelled from the spec (section 4.3): rewriting of this inside a
namespace method: a this-qualified sibling access becomes a direct local
reference to that sibling; a nested plain function expression is left
entirely untouched (its runtime this differs from that of the method); a nested
arrow function body is rewritten (arrows inherit the this of the method). -/
def rewriteThisE : NsExpr → NsExpr
  | NsExpr.thisProp p => NsExpr.ref p
  | NsExpr.ref s => NsExpr.ref s
  | NsExpr.call f args => NsExpr.call (rewriteThisE f) (rewriteThisL args)
  | NsExpr.funcE body => NsExpr.funcE body
  | NsExpr.arrowE body => NsExpr.arrowE (rewriteThisL body)
/-- Pointwise rewriting of a list of expressions. -/
def rewriteThisL : NsList → NsList
  | NsList.nil => NsList.nil
  | NsList.cons e rest => NsList.cons (rewriteThisE e) (rewriteThisL rest)
end

/-- Modelled from the spec (section 4.3) and the test named modifies this
references correctly for exports: conversion of the value assigned to a
namespace member.  Only a plain function expression gets its body
this-rewritten; an arrow-function member is left untouched (its this is
not a valid reference to the namespace), and any other value is kept. -/
def convertMemberValue : NsExpr → NsExpr
  | NsExpr.funcE body => NsExpr.funcE (rewriteThisL body)
  | v => v

mutual
/-- Number of this-qualified accesses reachable without entering a nested
plain function expression (arrow bodies are transparent). -/
def nakedThisE : NsExpr → Nat
  | NsExpr.thisProp _ => 1
  | NsExpr.ref _ => 0
  | NsExpr.call f args => nakedThisE f + nakedThisL args
  | NsExpr.funcE _ => 0
  | NsExpr.arrowE body => nakedThisL body
/-- Naked this-count of a list. -/
def nakedThisL : NsList → Nat
  | NsList.nil => 0
  | NsList.cons e rest => nakedThisE e + nakedThisL rest
end

mutual
/-- The nested plain-function subtrees reachable without entering another
nested plain function. -/
def fnSubtreesE : NsExpr → List NsExpr
  | NsExpr.thisProp _ => []
  | NsExpr.ref _ => []
  | NsExpr.call f args => fnSubtreesE f ++ fnSubtreesL args
  | NsExpr.funcE body => [NsExpr.funcE body]
  | NsExpr.arrowE body => fnSubtreesL body
/-- Nested plain-function subtrees of a list. -/
def fnSubtreesL : NsList → List NsExpr
  | NsList.nil => []
  | NsList.cons e rest => fnSubtreesE e ++ fnSubtreesL rest
end

mutual
/-- The member names referenced outside nested plain functions, in source
order; a this-qualified access of p and a direct local reference to p both
reference p. -/
def refsOutsideE : NsExpr → List String
  | NsExpr.thisProp p => [p]
  | NsExpr.ref s => [s]
  | NsExpr.call f args => refsOutsideE f ++ refsOutsideL args
  | NsExpr.funcE _ => []
  | NsExpr.arrowE body => refsOutsideL body
/-- Referenced names of a list. -/
def refsOutsideL : NsList → List String
  | NsList.nil => []
  | NsList.cons e rest => refsOutsideE e ++ refsOutsideL rest
end

mutual
theorem nakedThis_rewriteE (e : NsExpr) : nakedThisE (rewriteThisE e) = 0 := by
  cases e with
  | thisProp p => rfl
  | ref s => rfl
  | call f args =>
      simp [rewriteThisE, nakedThisE, nakedThis_rewriteE f, nakedThis_rewriteL args]
  | funcE b => rfl
  | arrowE b => simp [rewriteThisE, nakedThisE, nakedThis_rewriteL b]
theorem nakedThis_rewriteL (l : NsList) : nakedThisL (rewriteThisL l) = 0 := by
  cases l with
  | nil => rfl
  | cons e rest =>
      simp [rewriteThisL, nakedThisL, nakedThis_rewriteE e, nakedThis_rewriteL rest]
end

mutual
theorem fnSubtrees_rewriteE (e : NsExpr) :
    fnSubtreesE (rewriteThisE e) = fnSubtreesE e := by
  cases e with
  | thisProp p => rfl
  | ref s => rfl
  | call f args =>
      simp [rewriteThisE, fnSubtreesE, fnSubtrees_rewriteE f, fnSubtrees_rewriteL args]
  | funcE b => rfl
  | arrowE b => simp [rewriteThisE, fnSubtreesE, fnSubtrees_rewriteL b]
theorem fnSubtrees_rewriteL (l : NsList) :
    fnSubtreesL (rewriteThisL l) = fnSubtreesL l := by
  cases l with
  | nil => rfl
  | cons e rest =>
      simp [rewriteThisL, fnSubtreesL, fnSubtrees_rewriteE e, fnSubtrees_rewriteL rest]
end

mutual
theorem refsOutside_rewriteE (e : NsExpr) :
    refsOutsideE (rewriteThisE e) = refsOutsideE e := by
  cases e with
  | thisProp p => rfl
  | ref s => rfl
  | call f args =>
      simp [rewriteThisE, refsOutsideE, refsOutside_rewriteE f, refsOutside_rewriteL args]
  | funcE b => rfl
  | arrowE b => simp [rewriteThisE, refsOutsideE, refsOutside_rewriteL b]
theorem refsOutside_rewriteL (l : NsList) :
    refsOutsideL (rewriteThisL l) = refsOutsideL l := by
  cases l with
  | nil => rfl
  | cons e rest =>
      simp [rewriteThisL, refsOutsideL, refsOutside_rewriteE e, refsOutside_rewriteL rest]
end

/-- C5: for every function expression assigned as a member of a namespace
object, the conversion rewrites its body so that no this-qualified sibling
access remains outside nested plain function expressions (each becomes a
direct local reference to the accessed sibling: the referenced-name
sequence is unchanged while the this-count outside nested plain functions
drops to zero), every nested plain function expression is preserved
verbatim (so this occurrences inside it are left unrewritten), and an
arrow function assigned as a member is left untouched entirely. -/
theorem namespace_method_this_rewritten (body : NsList) :
    convertMemberValue (NsExpr.funcE body) = NsExpr.funcE (rewriteThisL body) ∧
    nakedThisL (rewriteThisL body) = 0 ∧
    fnSubtreesL (rewriteThisL body) = fnSubtreesL body ∧
    refsOutsideL (rewriteThisL body) = refsOutsideL body ∧
    (∀ b2 : NsList, convertMemberValue (NsExpr.arrowE b2) = NsExpr.arrowE b2) :=
  ⟨rfl, nakedThis_rewriteL body, fnSubtrees_rewriteL body,
    refsOutside_rewriteL body, fun _ => rfl⟩

/- ===================================================================
   Claim C8: top-level this (spec section 4.3)
   =================================================================== -/

mutual
/-- Modelled from the spec (section 4.3): an expression of a top-level
script fragment: bare this, the window global, an opaque token, a call, a
plain function expression, an arrow function, or a class with a
constructor body. -/
inductive TlExpr where
  | tthis
  | twindow
  | tok (s : String)
  | call (f : TlExpr) (args : TlList)
  | funcE (body : TlList)
  | arrowE (body : TlList)
  | ctorE (body : TlList)
/-- A list of top-level expressions. -/
inductive TlList where
  | nil
  | cons (e : TlExpr) (rest : TlList)
end

mutual
/-- Modelled from the spec (section 4.3): rewriting of bare top-level this
to the global object reference; every function-like body (plain function,
arrow, class constructor) is left untouched, since the runtime value of
this inside it is not statically known. -/
def rewriteTopE : TlExpr → TlExpr
  | TlExpr.tthis => TlExpr.twindow
  | TlExpr.twindow => TlExpr.twindow
  | TlExpr.tok s => TlExpr.tok s
  | TlExpr.call f args => TlExpr.call (rewriteTopE f) (rewriteTopL args)
  | TlExpr.funcE b => TlExpr.funcE b
  | TlExpr.arrowE b => TlExpr.arrowE b
  | TlExpr.ctorE b => TlExpr.ctorE b
/-- Pointwise top-level rewriting of a list. -/
def rewriteTopL : TlList → TlList
  | TlList.nil => TlList.nil
  | TlList.cons e rest => TlList.cons (rewriteTopE e) (rewriteTopL rest)
end

/-- A script fragment: whether it carries a use-strict directive, and its
top-level expressions. -/
structure TlScript where
  strict : Bool
  body : TlList

/-- Modelled from the test named rewrite toplevel this to window: a script
fragment carrying a use-strict directive is left entirely untouched (the
second script of the test keeps its this); otherwise bare top-level this
occurrences outside any function body are rewritten to window. -/
def rewriteTopLevelThis (s : TlScript) : TlScript :=
  if s.strict then s else { s with body := rewriteTopL s.body }

mutual
/-- Number of bare this occurrences outside any function body. -/
def topThisE : TlExpr → Nat
  | TlExpr.tthis => 1
  | TlExpr.twindow => 0
  | TlExpr.tok _ => 0
  | TlExpr.call f args => topThisE f + topThisL args
  | TlExpr.funcE _ => 0
  | TlExpr.arrowE _ => 0
  | TlExpr.ctorE _ => 0
/-- Top-level this-count of a list. -/
def topThisL : TlList → Nat
  | TlList.nil => 0
  | TlList.cons e rest => topThisE e + topThisL rest
end

mutual
/-- The function-like subtrees (plain functions, arrows, class
constructors) reachable without entering another function body. -/
def tlFnSubtreesE : TlExpr → List TlExpr
  | TlExpr.tthis => []
  | TlExpr.twindow => []
  | TlExpr.tok _ => []
  | TlExpr.call f args => tlFnSubtreesE f ++ tlFnSubtreesL args
  | TlExpr.funcE b => [TlExpr.funcE b]
  | TlExpr.arrowE b => [TlExpr.arrowE b]
  | TlExpr.ctorE b => [TlExpr.ctorE b]
/-- Function-like subtrees of a list. -/
def tlFnSubtreesL : TlList → List TlExpr
  | TlList.nil => []
  | TlList.cons e rest => tlFnSubtreesE e ++ tlFnSubtreesL rest
end

mutual
theorem topThis_rewriteE (e : TlExpr) : topThisE (rewriteTopE e) = 0 := by
  cases e with
  | tthis => rfl
  | twindow => rfl
  | tok s => rfl
  | call f args =>
      simp [rewriteTopE, topThisE, topThis_rewriteE f, topThis_rewriteL args]
  | funcE b => rfl
  | arrowE b => rfl
  | ctorE b => rfl
theorem topThis_rewriteL (l : TlList) : topThisL (rewriteTopL l) = 0 := by
  cases l with
  | nil => rfl
  | cons e rest =>
      simp [rewriteTopL, topThisL, topThis_rewriteE e, topThis_rewriteL rest]
end

mutual
theorem tlFnSubtrees_rewriteE (e : TlExpr) :
    tlFnSubtreesE (rewriteTopE e) = tlFnSubtreesE e := by
  cases e with
  | tthis => rfl
  | twindow => rfl
  | tok s => rfl
  | call f args =>
      simp [rewriteTopE, tlFnSubtreesE, tlFnSubtrees_rewriteE f,
        tlFnSubtrees_rewriteL args]
  | funcE b => rfl
  | arrowE b => rfl
  | ctorE b => rfl
theorem tlFnSubtrees_rewriteL (l : TlList) :
    tlFnSubtreesL (rewriteTopL l) = tlFnSubtreesL l := by
  cases l with
  | nil => rfl
  | cons e rest =>
      simp [rewriteTopL, tlFnSubtreesL, tlFnSubtrees_rewriteE e,
        tlFnSubtrees_rewriteL rest]
end

/-- Script used by the C8 counterexample: it carries a use-strict
directive and one bare top-level this, mirroring the second script of the
test named rewrite toplevel this to window. -/
def strictThisScript : TlScript :=
  { strict := true, body := TlList.cons TlExpr.tthis TlList.nil }

/-- C8 counterexample: a script fragment with a use-strict directive keeps
its bare top-level this unrewritten (the conversion leaves the whole
script untouched), so it is not the case that every bare top-level this
outside any function body is rewritten to window.  This mirrors the
second script of the test named rewrite toplevel this to window, whose
expected output keeps console.log(this). -/
theorem strict_script_toplevel_this_unrewritten :
    rewriteTopLevelThis strictThisScript = strictThisScript ∧
    topThisL (rewriteTopLevelThis strictThisScript).body = 1 :=
  ⟨rfl, rfl⟩

/-- C8 (amended): for every script fragment without a use-strict
directive, every bare this occurring at top level outside any function
body is rewritten to window (none remains), and every function-like
subtree (plain function, arrow function, class constructor) is preserved
verbatim, so every this inside any function body is left untouched; a
script fragment with a use-strict directive is left entirely untouched. -/
theorem toplevel_this_becomes_window (s : TlScript) (h : s.strict = false) :
    topThisL (rewriteTopLevelThis s).body = 0 ∧
    tlFnSubtreesL (rewriteTopLevelThis s).body = tlFnSubtreesL s.body ∧
    (∀ s2 : TlScript, s2.strict = true → rewriteTopLevelThis s2 = s2) := by
  rw [rewriteTopLevelThis, if_neg (by simp [h])]
  refine ⟨topThis_rewriteL s.body, tlFnSubtrees_rewriteL s.body, ?_⟩
  intro s2 h2
  rw [rewriteTopLevelThis, if_pos (by simp [h2])]

/-- Script used by the C8 witness, mirroring the first script of the test:
a top-level this inside a call, a function whose body holds a this, a
class constructor holding a this, and a bare this. -/
def tlWitnessScript : TlScript :=
  { strict := false,
    body :=
      TlList.cons (TlExpr.call (TlExpr.tok "console.log")
          (TlList.cons TlExpr.tthis TlList.nil))
        (TlList.cons (TlExpr.funcE (TlList.cons TlExpr.tthis TlList.nil))
          (TlList.cons (TlExpr.ctorE (TlList.cons TlExpr.tthis TlList.nil))
            (TlList.cons TlExpr.tthis TlList.nil))) }

/-- Witness for the amended C8 at the concrete first script of the test
named rewrite toplevel this to window. -/
theorem toplevel_this_witness :
    tlWitnessScript.strict = false ∧
    topThisL (rewriteTopLevelThis tlWitnessScript).body = 0 ∧
    tlFnSubtreesL (rewriteTopLevelThis tlWitnessScript).body =
      tlFnSubtreesL tlWitnessScript.body :=
  ⟨rfl, (toplevel_this_becomes_window tlWitnessScript rfl).1,
    (toplevel_this_becomes_window tlWitnessScript rfl).2.1⟩

/- ===================================================================
   Claim C1: cyclic dependency graphs (spec section 4.5)
   =================================================================== -/

/-- Modelled from the spec (data model): a document of the dependency
graph as the Cycle Detector and Reference Resolver see it: its URL, its
include edges in order, the namespace members it declares, and the
namespace members its scripts reference. -/
structure GDoc where
  url : String
  includes : List String
  decls : List String
  refs : List String
  deriving DecidableEq, Repr

/-- Document lookup by URL (first match). -/
def findDoc (g : List GDoc) (u : String) : Option GDoc :=
  g.find? (fun d => d.url == u)

/-- Fuel bound for the depth-first traversal: every node entered consumes
one unit, and each node is entered at most once per distinct URL. -/
def graphFuel (g : List GDoc) : Nat :=
  g.length + (g.map (fun d => d.includes.length)).sum + 1

/-- Modelled from the spec (section 4.5): the cycle-finding depth-first
traversal.  The state is the pair (completed nodes, cyclic edges found so
far); the active path is tracked separately.  A node already completed is
skipped; otherwise it is marked and its include edges processed in order:
an edge whose target lies on the active path closes a cycle and is
recorded as a cyclic edge, any other edge is followed recursively. -/
def dfsVisit (g : List GDoc) (fuel : Nat) (path : List String) (u : String)
    (st : List String × List (String × String)) :
    List String × List (String × String) :=
  if _hf : fuel = 0 then st
  else if u ∈ st.1 then st
  else
    match findDoc g u with
    | none => (u :: st.1, st.2)
    | some d =>
        d.includes.foldl
          (fun acc v =>
            if v ∈ u :: path then (acc.1, (u, v) :: acc.2)
            else dfsVisit g (fuel - 1) (u :: path) v acc)
          (u :: st.1, st.2)
termination_by fuel
decreasing_by omega

/-- Modelled from the spec (section 4.5): the cyclic edges of the graph,
found by running the traversal from every document in order; recorded in
first-detected order. -/
def cyclicEdges (g : List GDoc) : List (String × String) :=
  (g.foldl (fun st d => dfsVisit g (graphFuel g) [] d.url st) ([], [])).2.reverse

/-- The diagnostic emitted for one cyclic edge, naming the two documents
involved, with the wording of the warning the tests expect. -/
def cycleMessage (importer imported : String) : String :=
  "Cycle in dependency graph found where " ++ importer ++ " imports " ++
    imported ++ "."

/-- One diagnostic per cyclic edge, regardless of how many references
cross it. -/
def cycleDiagnostics (g : List GDoc) : List String :=
  (cyclicEdges g).map (fun e => cycleMessage e.1 e.2)

/-- One converted reference: the consuming document, the member, the
declaring document it resolved to, and whether the reference was rewritten
to use the imported binding (true) or left as its original
namespace-qualified expression (false). -/
structure RefOut where
  srcDoc : String
  member : String
  tgtDoc : String
  rewritten : Bool
  deriving DecidableEq, Repr

/-- The document declaring a member (first declaring document in graph
order). -/
def declaringDoc (g : List GDoc) (m : String) : Option String :=
  (g.find? (fun d => d.decls.contains m)).map (fun d => d.url)

/-- Modelled from the spec (sections 4.3 and 4.5): resolution of one
references of one document.  A reference whose member has no declaring document
is dropped here (it is left unrewritten with a warning, outside this
claim).  A resolved reference is rewritten to the imported binding unless
the edge from the consuming to the declaring document is marked cyclic, in
which case it is left as the original namespace-qualified expression. -/
def convertRefs (g : List GDoc) (cyc : List (String × String)) (d : GDoc) :
    List RefOut :=
  d.refs.filterMap (fun m =>
    match declaringDoc g m with
    | none => none
    | some t =>
        some { srcDoc := d.url, member := m, tgtDoc := t,
               rewritten := !(cyc.contains (d.url, t)) })

/-- An import emitted for a converted document of the dependency graph:
bare side-effect import of a document, or a named import of one member
from it. -/
inductive GImport where
  | bare (url : String)
  | named (url member : String)
  deriving DecidableEq, Repr

/-- Modelled from the spec (sections 4.4 and 4.5): the imports of one
document: each include edge becomes named imports for the members whose
references were rewritten against it, or, when no reference was rewritten
across it (in particular across a cyclic edge), a single bare
side-effect import preserving the dependency for ordering. -/
def docImports (g : List GDoc) (cyc : List (String × String)) (d : GDoc) :
    List GImport :=
  d.includes.flatMap (fun t =>
    let ms := (convertRefs g cyc d).filter (fun r => r.tgtDoc == t && r.rewritten)
    if ms.isEmpty then [GImport.bare t]
    else ms.map (fun r => GImport.named t r.member))

/-- The output of a whole-graph conversion: the diagnostics in
first-detected order, every converted reference, and the imports emitted
per document. -/
structure GOut where
  diagnostics : List String
  refOuts : List RefOut
  imports : List (String × List GImport)
  deriving DecidableEq, Repr

/-- Modelled from the spec (sections 4.1, 4.5 and section 7): whole-graph
conversion.  An include edge whose target cannot be found is a structural
UnresolvedIncludeError aborting the run; otherwise the cycle detector
annotates the edges, diagnostics are collected (one per cyclic edge), and
every document is converted with the degraded policy across cyclic
edges. -/
def convertGraph (g : List GDoc) : Except String GOut :=
  if g.all (fun d => d.includes.all (fun v => (findDoc g v).isSome)) then
    Except.ok
      { diagnostics := cycleDiagnostics g,
        refOuts := g.flatMap (convertRefs g (cyclicEdges g)),
        imports := g.map (fun d => (d.url, docImports g (cyclicEdges g) d)) }
  else Except.error "UnresolvedIncludeError"

/-- Whether whole-graph conversion completed without a fatal abort. -/
def graphOk (e : Except String GOut) : Bool :=
  match e with
  | Except.ok _ => true
  | Except.error _ => false

/-- The diagnostics of a completed conversion. -/
def outDiagnostics (e : Except String GOut) : List String :=
  match e with
  | Except.ok o => o.diagnostics
  | Except.error _ => []

/-- The converted references of a completed conversion. -/
def outRefOuts (e : Except String GOut) : List RefOut :=
  match e with
  | Except.ok o => o.refOuts
  | Except.error _ => []

/-- The imports a completed conversion emitted for one document. -/
def outImportsOf (e : Except String GOut) (u : String) : Option (List GImport) :=
  match e with
  | Except.ok o => (o.imports.find? (fun p => p.1 == u)).map Prod.snd
  | Except.error _ => none

theorem convertRefs_spec (g : List GDoc) (cyc : List (String × String))
    (d : GDoc) :
    ∀ r ∈ convertRefs g cyc d,
      r.srcDoc = d.url ∧ r.rewritten = !(cyc.contains (d.url, r.tgtDoc)) := by
  intro r hr
  simp only [convertRefs, List.mem_filterMap] at hr
  obtain ⟨m, _, hsome⟩ := hr
  cases hd : declaringDoc g m with
  | none => simp [hd] at hsome
  | some t =>
      simp only [hd, Option.some.injEq] at hsome
      subst hsome
      exact ⟨rfl, rfl⟩

theorem convertRefs_cyclic_unrewritten (g : List GDoc)
    (cyc : List (String × String)) (d : GDoc) :
    ∀ r ∈ convertRefs g cyc d, (r.srcDoc, r.tgtDoc) ∈ cyc →
      r.rewritten = false := by
  intro r hr hmem
  obtain ⟨hsrc, hrw⟩ := convertRefs_spec g cyc d r hr
  rw [hsrc] at hmem
  have hb : cyc.contains (d.url, r.tgtDoc) = true := by simpa using hmem
  rw [hrw, hb]
  rfl

theorem findDoc_first (A B : GDoc) : findDoc [A, B] A.url = some A := by
  rw [findDoc, List.find?_cons_of_pos _ (by simp)]

theorem findDoc_second (A B : GDoc) (hne : A.url ≠ B.url) :
    findDoc [A, B] B.url = some B := by
  rw [findDoc, List.find?_cons_of_neg _ (by simp [hne]),
    List.find?_cons_of_pos _ (by simp)]

theorem dfsVisit_inner_step (A B : GDoc) (hB : B.includes = [A.url])
    (hne : A.url ≠ B.url) :
    dfsVisit [A, B] 4 [A.url] B.url ([A.url], []) =
      ([B.url, A.url], [(B.url, A.url)]) := by
  have hfB : findDoc [A, B] B.url = some B := findDoc_second A B hne
  rw [dfsVisit]
  rw [dif_neg (by omega)]
  rw [if_neg (by simp [Ne.symm hne])]
  simp only [hfB, hB]
  rw [List.foldl_cons, List.foldl_nil]
  rw [if_pos (by simp)]

theorem dfsVisit_outer_step (A B : GDoc)
    (hA : A.includes = [B.url]) (hB : B.includes = [A.url])
    (hne : A.url ≠ B.url) :
    dfsVisit [A, B] 5 [] A.url ([], []) =
      ([B.url, A.url], [(B.url, A.url)]) := by
  have hfA : findDoc [A, B] A.url = some A := findDoc_first A B
  rw [dfsVisit]
  rw [dif_neg (by omega)]
  rw [if_neg (by simp)]
  simp only [hfA, hA]
  rw [List.foldl_cons, List.foldl_nil]
  rw [if_neg (by simp [Ne.symm hne])]
  exact dfsVisit_inner_step A B hB hne

theorem cyclicEdges_two_cycle (A B : GDoc)
    (hA : A.includes = [B.url]) (hB : B.includes = [A.url])
    (hne : A.url ≠ B.url) :
    cyclicEdges [A, B] = [(B.url, A.url)] := by
  have hfuel : graphFuel [A, B] = 5 := by simp [graphFuel, hA, hB]
  rw [cyclicEdges, List.foldl_cons, List.foldl_cons, List.foldl_nil, hfuel]
  rw [dfsVisit_outer_step A B hA hB hne]
  rw [dfsVisit, dif_neg (by omega), if_pos (by simp)]
  simp

/-- C1: for every pair of documents A and B where A includes B and B
includes A (and nothing else), conversion completes without a fatal
abort, emits exactly one cycle diagnostic naming the two documents (the
edge from B back to A closes the cycle in traversal order), every
reference resolved across the cyclic edge is left as its original
namespace-qualified expression rather than rewritten to the imported
binding, and the import of A by B is emitted as one bare
side-effect import declaration. -/
theorem two_document_cycle_degrades_safely (A B : GDoc)
    (hA : A.includes = [B.url]) (hB : B.includes = [A.url])
    (hne : A.url ≠ B.url) :
    graphOk (convertGraph [A, B]) = true ∧
    cyclicEdges [A, B] = [(B.url, A.url)] ∧
    outDiagnostics (convertGraph [A, B]) = [cycleMessage B.url A.url] ∧
    (∀ r ∈ outRefOuts (convertGraph [A, B]),
      r.srcDoc = B.url → r.tgtDoc = A.url → r.rewritten = false) ∧
    outImportsOf (convertGraph [A, B]) B.url = some [GImport.bare A.url] := by
  have hfA : findDoc [A, B] A.url = some A := findDoc_first A B
  have hfB : findDoc [A, B] B.url = some B := findDoc_second A B hne
  have hcyc : cyclicEdges [A, B] = [(B.url, A.url)] :=
    cyclicEdges_two_cycle A B hA hB hne
  have hguard :
      ([A, B].all (fun d => d.includes.all (fun v => (findDoc [A, B] v).isSome)))
        = true := by
    simp [hA, hB, hfA, hfB]
  have hok : convertGraph [A, B] =
      Except.ok
        { diagnostics := cycleDiagnostics [A, B],
          refOuts := [A, B].flatMap (convertRefs [A, B] (cyclicEdges [A, B])),
          imports :=
            [A, B].map (fun d => (d.url, docImports [A, B] (cyclicEdges [A, B]) d)) } := by
    rw [convertGraph, if_pos hguard]
  refine ⟨?_, hcyc, ?_, ?_, ?_⟩
  · rw [hok]; rfl
  · rw [hok]
    simp [outDiagnostics, cycleDiagnostics, hcyc, cycleMessage]
  · rw [hok]
    intro r hr hsrc htgt
    simp only [outRefOuts, List.mem_flatMap] at hr
    obtain ⟨d, _, hrd⟩ := hr
    refine convertRefs_cyclic_unrewritten [A, B] (cyclicEdges [A, B]) d r hrd ?_
    rw [hsrc, htgt, hcyc]
    exact List.mem_singleton.mpr rfl
  · have hms : ((convertRefs [A, B] (cyclicEdges [A, B]) B).filter
        (fun r => r.tgtDoc == A.url && r.rewritten)) = [] := by
      rw [List.filter_eq_nil_iff]
      intro r hr
      obtain ⟨hsrc, hrw⟩ := convertRefs_spec [A, B] (cyclicEdges [A, B]) B r hr
      by_cases ht : r.tgtDoc = A.url
      · have : r.rewritten = false := by
          refine convertRefs_cyclic_unrewritten [A, B] (cyclicEdges [A, B]) B r hr ?_
          rw [hsrc, ht, hcyc]
          exact List.mem_singleton.mpr rfl
        simp [this]
      · simp [ht]
    have hdi : docImports [A, B] (cyclicEdges [A, B]) B = [GImport.bare A.url] := by
      rw [docImports, hB]
      simp only [List.flatMap_cons, List.flatMap_nil, List.append_nil]
      rw [hms]
      simp
    rw [hok]
    simp only [outImportsOf, List.map_cons, List.map_nil]
    rw [List.find?_cons_of_neg _ (by simp [hne]),
      List.find?_cons_of_pos _ (by simp)]
    simp [hdi]

/-- First document of the C1 witness, mirroring the test named deal with
cyclic dependency graphs combined with the reference structure of the test
named Deal with cyclic references: a.html includes b.html, declares foo
and references bar. -/
def cycDocA : GDoc :=
  { url := "a.html", includes := ["b.html"], decls := ["foo"], refs := ["bar"] }

/-- Second document of the C1 witness: b.html includes a.html, declares
bar and references foo across the cyclic edge. -/
def cycDocB : GDoc :=
  { url := "b.html", includes := ["a.html"], decls := ["bar"], refs := ["foo"] }

/-- Witness for C1 at the concrete two-document cycle of the tests. -/
theorem two_document_cycle_witness :
    cycDocA.includes = [cycDocB.url] ∧ cycDocB.includes = [cycDocA.url] ∧
    cycDocA.url ≠ cycDocB.url ∧
    graphOk (convertGraph [cycDocA, cycDocB]) = true ∧
    outDiagnostics (convertGraph [cycDocA, cycDocB]) =
      [cycleMessage cycDocB.url cycDocA.url] ∧
    outImportsOf (convertGraph [cycDocA, cycDocB]) cycDocB.url =
      some [GImport.bare cycDocA.url] :=
  ⟨rfl, rfl, by decide,
   (two_document_cycle_degrades_safely cycDocA cycDocB rfl rfl (by decide)).1,
   (two_document_cycle_degrades_safely cycDocA cycDocB rfl rfl (by decide)).2.2.1,
   (two_document_cycle_degrades_safely cycDocA cycDocB rfl rfl (by decide)).2.2.2.2⟩

end Spec2Proof
